import Mathlib

/-!
# Verification of the blc-perf-analyzer core pipeline

Shallow embedding of the Go sources `internal/parser/perfscript.go` and
`internal/heatmap/generator.go`:

* `classifyFrame` embeds `ClassifyFrame`,
* `parsePerfScript` embeds `ParsePerfScript` (including the regular
  expressions, rendered as an explicit backtracking matcher with Perl
  leftmost-first semantics, which is what Go's `regexp` package provides
  for submatches, and the `bufio.Scanner` line splitter with its
  64 KiB token limit),
* `partitionByTime` embeds `PartitionByTime`,
* `mkTimeWindowData`, `detectPatterns` and `generateHeatmap` embed the
  aggregation and pattern-detection stages of `GenerateHeatmap`.

`float64` values (timestamps, window sizes, percentages) are modelled as
exact rationals; Go machine integers are modelled as `Nat` (all integer
quantities in this pipeline are non-negative and far from overflow).
-/

namespace BlcPerf

/-! ## String helpers (Go `strings` package, ASCII fragment) -/

/-- Substring test on character lists; embeds both `strings.Contains`
and the hand-rolled `containsAny`/`findSubstring` helpers of
`generator.go` (the brute-force search in `findSubstring` decides
exactly substring presence). -/
def listContains (l sub : List Char) : Bool :=
  match l with
  | [] => sub.isEmpty
  | c :: t => sub.isPrefixOf (c :: t) || listContains t sub

/-- `strings.Contains`. -/
def strContains (s sub : String) : Bool :=
  listContains s.data sub.data

/-- `strings.HasPrefix`. -/
def strHasPre (s p : String) : Bool :=
  p.data.isPrefixOf s.data

/-- `strings.HasSuffix`. -/
def strHasSuf (s p : String) : Bool :=
  p.data.isSuffixOf s.data

/-- `strings.ToLower` (ASCII; the inputs the pipeline cares about are
ASCII module paths and symbol names). -/
def strToLower (s : String) : String :=
  String.mk (s.data.map Char.toLower)

/-- Characters trimmed by `strings.TrimSpace` (ASCII white space). -/
def isTrimmable (c : Char) : Bool :=
  c = ' ' || c = '\t' || c = '\n' || c = '\r' ||
  c = Char.ofNat 11 || c = Char.ofNat 12

/-- `strings.TrimSpace`. -/
def trimSpace (s : String) : String :=
  String.mk (((s.data.dropWhile isTrimmable).reverse.dropWhile isTrimmable).reverse)

/-! ## Frame classification (`ClassifyFrame`, perfscript.go:148-195) -/

/-- `FrameType` constants of perfscript.go. -/
inductive FrameType where
  | kernel_core
  | kernel_driver
  | libc
  | libpthread
  | libmysql
  | application
  | unknown
deriving DecidableEq, Repr

/-- The JSON name of a frame type, i.e. Go's `string(frame.Type)`. -/
def frameTypeStr : FrameType → String
  | .kernel_core => "kernel_core"
  | .kernel_driver => "kernel_driver"
  | .libc => "libc"
  | .libpthread => "libpthread"
  | .libmysql => "libmysql"
  | .application => "application"
  | .unknown => "unknown"

/-- `ClassifyFrame` (perfscript.go:148-195): determines the type and the
kernel/userland flags of a stack frame from its module and symbol. -/
def classifyFrame (module symbol : String) : FrameType × Bool × Bool :=
  let m := strToLower module
  let s := strToLower symbol
  if strContains m "kernel.kallsyms" || strContains m "[kernel" ||
     strContains m "vmlinux" then
    (.kernel_core, true, false)
  else if strHasPre m "[" && strHasSuf m "]" then
    (.kernel_driver, true, false)
  else if strContains m "libc" && (strContains m ".so" || strContains m "libc-") then
    (.libc, false, true)
  else if strContains m "libpthread" then
    (.libpthread, false, true)
  else if strContains m "mysql" || strContains m "mariadb" ||
          strContains s "mysql" || strContains s "maria" then
    (.libmysql, false, true)
  else if !(strContains m ".so") && !(strHasPre m "[") then
    (.application, false, true)
  else if strContains m ".so" then
    (.unknown, false, true)
  else
    (.unknown, false, false)

/-! ## Regular expressions

Go's `regexp` package returns, for `FindStringSubmatch`, the match a
Perl-style backtracking search would find first (leftmost-first,
greedy quantifiers).  The three patterns of `ParsePerfScript` are all
anchored with `^`, built from literals, character classes, `*`/`+`
repetition of classes, one optional non-capturing group and capturing
groups of the former.  We compile each of them to a flat program of
`RItem` instructions and run an explicit backtracking matcher. -/

/-- One instruction of a compiled regular expression. -/
inductive RItem where
  /-- a literal character -/
  | lit (c : Char)
  /-- exactly one character of a class -/
  | cls (p : Char → Bool)
  /-- greedy `*` over a character class -/
  | star (p : Char → Bool)
  /-- internal state of a greedy star: consume exactly `k` characters
  of the current maximal class run, on failure retry with `k - 1` -/
  | starK (k : Nat)
  /-- greedy `(?:...)?`: first try the next `k` instructions, on failure
  skip them -/
  | alt2 (k : Nat)
  /-- start of capturing group `n` -/
  | gOpen (n : Nat)
  /-- end of capturing group `n` -/
  | gClose (n : Nat)

/-- Length of the maximal run of class-`p` characters of `s` at `pos`. -/
def runLen (p : Char → Bool) (s : List Char) (pos : Nat) : Nat :=
  ((s.drop pos).takeWhile p).length

/-- Backtracking matcher: runs program `prog` on `s` from `pos` with a
stack `st` of open groups and accumulated captures `caps` (group,
start, end as positions in `s`); returns the end position and the
captures of the first (Perl leftmost-first) match: greedy stars and
options try the longer alternative first, exactly the match Go's
`regexp` submatch search selects.

`fuel` is structural-recursion fuel bounding the call depth; every
recursive call strictly decreases the measure
`μ(prog, k) = (number of instructions of prog)·(|s| + 2) + (current
star budget k + 1)`, which is below `(prog.length + 1)·(|s| + 2)`, so
the fuel passed by `regexCaps` is never exhausted. -/
def matchGo : Nat → List Char → List RItem → Nat → List (Nat × Nat) →
    List (Nat × Nat × Nat) → Option (Nat × List (Nat × Nat × Nat))
  | 0, _, _, _, _, _ => none
  | fuel + 1, s, prog, pos, st, caps =>
    match prog with
    | [] => some (pos, caps)
    | .lit c :: rest =>
      match s.get? pos with
      | some c' => if c' = c then matchGo fuel s rest (pos + 1) st caps else none
      | none => none
    | .cls p :: rest =>
      match s.get? pos with
      | some c' => if p c' then matchGo fuel s rest (pos + 1) st caps else none
      | none => none
    | .star p :: rest =>
      matchGo fuel s (.starK (runLen p s pos) :: rest) pos st caps
    | .starK k :: rest =>
      (matchGo fuel s rest (pos + k) st caps).orElse fun _ =>
        match k with
        | 0 => none
        | k' + 1 => matchGo fuel s (.starK k' :: rest) pos st caps
    | .alt2 k :: rest =>
      (matchGo fuel s rest pos st caps).orElse fun _ =>
        matchGo fuel s (rest.drop k) pos st caps
    | .gOpen n :: rest => matchGo fuel s rest pos ((n, pos) :: st) caps
    | .gClose _ :: rest =>
      match st with
      | (m, openPos) :: st' => matchGo fuel s rest pos st' ((m, openPos, pos) :: caps)
      | [] => none

/-- Run an anchored pattern on a line, returning its captures. -/
def regexCaps (prog : List RItem) (line : List Char) :
    Option (List (Nat × Nat × Nat)) :=
  (matchGo ((prog.length + 1) * (line.length + 2)) line prog 0 [] []).map (·.2)

/-- Text of capture `n` (Go returns `""` for a group that did not
participate in the match). -/
def capChars (s : List Char) (caps : List (Nat × Nat × Nat)) (n : Nat) :
    List Char :=
  match caps.find? (fun c => c.1 = n) with
  | some (_, a, b) => (s.drop a).take (b - a)
  | none => []

/-- Capture `n` as a string. -/
def capStr (s : List Char) (caps : List (Nat × Nat × Nat)) (n : Nat) : String :=
  String.mk (capChars s caps n)

/-- RE2's `\s`: `[\t\n\f\r ]`. -/
def reSpace (c : Char) : Bool :=
  c = '\t' || c = '\n' || c = Char.ofNat 12 || c = '\r' || c = ' '

/-- RE2's `\S`. -/
def reNonSpace (c : Char) : Bool := !reSpace c

/-- RE2's `\d`. -/
def reDigit (c : Char) : Bool := '0' ≤ c && c ≤ '9'

/-- `[0-9a-fA-F]`. -/
def reHex (c : Char) : Bool :=
  reDigit c || ('a' ≤ c && c ≤ 'f') || ('A' ≤ c && c ≤ 'F')

/-- `[^\+\(]`. -/
def reNotPlusParen (c : Char) : Bool := !(c = '+' || c = '(')

/-- `[^\)]`. -/
def reNotRParen (c : Char) : Bool := !(c = ')')

/-- `p+` as instructions. -/
def plusC (p : Char → Bool) : List RItem := [.cls p, .star p]

/-- `(p+)` as capturing group `n`. -/
def grpPlus (n : Nat) (p : Char → Bool) : List RItem :=
  [.gOpen n] ++ plusC p ++ [.gClose n]

/-- perfscript.go:54, format 1 header:
`^\s*(\S+)\s+(\d+)/(\d+)\s+\[(\d+)\]\s+(\d+\.\d+):\s+\d+\s+(\S+):`. -/
def headerRegex1 : List RItem :=
  [.star reSpace] ++ grpPlus 1 reNonSpace ++ plusC reSpace ++
  grpPlus 2 reDigit ++ [.lit '/'] ++ grpPlus 3 reDigit ++ plusC reSpace ++
  [.lit '['] ++ grpPlus 4 reDigit ++ [.lit ']'] ++ plusC reSpace ++
  [.gOpen 5] ++ plusC reDigit ++ [.lit '.'] ++ plusC reDigit ++ [.gClose 5] ++
  [.lit ':'] ++ plusC reSpace ++ plusC reDigit ++ plusC reSpace ++
  grpPlus 6 reNonSpace ++ [.lit ':']

/-- perfscript.go:57, format 2 header:
`^\s*(\S+)\s+(\d+)\s+(\d+\.\d+):\s+\d+\s+(\S+):`. -/
def headerRegex2 : List RItem :=
  [.star reSpace] ++ grpPlus 1 reNonSpace ++ plusC reSpace ++
  grpPlus 2 reDigit ++ plusC reSpace ++
  [.gOpen 3] ++ plusC reDigit ++ [.lit '.'] ++ plusC reDigit ++ [.gClose 3] ++
  [.lit ':'] ++ plusC reSpace ++ plusC reDigit ++ plusC reSpace ++
  grpPlus 4 reNonSpace ++ [.lit ':']

/-- The optional offset part `(?:\+0x([0-9a-fA-F]+))?` of the stack
frame pattern. -/
def offsetSub : List RItem :=
  [.lit '+', .lit '0', .lit 'x'] ++ grpPlus 3 reHex

/-- perfscript.go:62, stack frame line:
`^\s+([0-9a-fA-F]+)\s+([^\+\(]+)(?:\+0x([0-9a-fA-F]+))?\s+\(([^\)]+)\)`. -/
def stackRegex : List RItem :=
  plusC reSpace ++ grpPlus 1 reHex ++ plusC reSpace ++
  grpPlus 2 reNotPlusParen ++ [.alt2 offsetSub.length] ++ offsetSub ++
  plusC reSpace ++ [.lit '('] ++ grpPlus 4 reNotRParen ++ [.lit ')']

/-! ## Samples and the perf script parser (`ParsePerfScript`) -/

/-- `StackFrame` (perfscript.go:24-32). -/
structure StackFrame where
  address : String
  symbol : String
  module : String
  offset : String
  type : FrameType
  isKernel : Bool
  isUserland : Bool
deriving DecidableEq, Repr

/-- `Sample` (perfscript.go:13-21).  `pid`, `tid`, `cpu` are Go `int`s
parsed from decimal digit runs, hence naturals; the `float64` timestamp
is modelled as an exact rational. -/
structure Sample where
  command : String
  pid : Nat
  tid : Nat
  cpu : Nat
  timestamp : ℚ
  event : String
  stack : List StackFrame
deriving DecidableEq, Repr

/-- `strconv.Atoi` on a run of decimal digits. -/
def digitsToNat (l : List Char) : Nat :=
  l.foldl (fun n c => n * 10 + (c.toNat - '0'.toNat)) 0

/-- `strconv.ParseFloat` on a `\d+\.\d+` capture, as an exact rational
(the embedding ignores the final rounding to binary floating point). -/
def parseTimestamp (l : List Char) : ℚ :=
  let ip := l.takeWhile (fun c => c ≠ '.')
  let fp := (l.dropWhile (fun c => c ≠ '.')).drop 1
  (digitsToNat ip : ℚ) + (digitsToNat fp : ℚ) / (10 : ℚ) ^ fp.length

/-- Builds the `StackFrame` of perfscript.go:120-128 from the four
captures of `stackRegex` and classifies it. -/
def mkFrame (addr sym off module : String) : StackFrame :=
  let symbol := trimSpace sym
  let md := trimSpace module
  let r := classifyFrame md symbol
  { address := addr, symbol := symbol, module := md, offset := off
  , type := r.1, isKernel := r.2.1, isUserland := r.2.2 }

/-- Loop state of `ParsePerfScript`: samples flushed so far and the
currently open sample. -/
structure PState where
  samples : List Sample
  current : Option Sample
deriving DecidableEq, Repr

/-- Flush the open sample, if any (perfscript.go:72-74 and 136-138). -/
def flushCurrent (st : PState) : List Sample :=
  match st.current with
  | some s => st.samples ++ [s]
  | none => st.samples

/-- The per-line body of the scanner loop of `ParsePerfScript`
(perfscript.go:66-133): try header format 1, then header format 2,
then a tab-prefixed stack frame line; anything else is ignored. -/
def processLine (st : PState) (line : List Char) : PState :=
  match regexCaps headerRegex1 line with
  | some caps =>
    { samples := flushCurrent st
    , current := some
        { command := trimSpace (capStr line caps 1)
        , pid := digitsToNat (capChars line caps 2)
        , tid := digitsToNat (capChars line caps 3)
        , cpu := digitsToNat (capChars line caps 4)
        , timestamp := parseTimestamp (capChars line caps 5)
        , event := trimSpace (capStr line caps 6)
        , stack := [] } }
  | none =>
    match regexCaps headerRegex2 line with
    | some caps =>
      { samples := flushCurrent st
      , current := some
          { command := trimSpace (capStr line caps 1)
          , pid := digitsToNat (capChars line caps 2)
          , tid := digitsToNat (capChars line caps 2)
          , cpu := 0
          , timestamp := parseTimestamp (capChars line caps 3)
          , event := trimSpace (capStr line caps 4)
          , stack := [] } }
    | none =>
      match st.current with
      | some cur =>
        if line.head? = some '\t' then
          match regexCaps stackRegex line with
          | some caps =>
            let frame := mkFrame (capStr line caps 1) (capStr line caps 2)
              (capStr line caps 3) (capStr line caps 4)
            { st with current := some { cur with stack := cur.stack ++ [frame] } }
          | none => st
        else st
      | none => st

/-! ### The `bufio.Scanner` line splitter

`ParsePerfScript` reads its input through a `bufio.Scanner` with
`ScanLines`: tokens are `\n`-separated lines with one trailing `\r`
stripped, the final line needs no terminator, and a line whose content
reaches `MaxScanTokenSize = 65536` bytes makes the scanner stop with
`ErrTooLong`, which perfscript.go:140-142 converts into an error
return. -/

/-- Split on `'\n'`; the last chunk is the text after the final
newline (possibly empty). -/
def splitNl : List Char → List Char → List (List Char)
  | [], acc => [acc.reverse]
  | c :: rest, acc =>
    if c = '\n' then acc.reverse :: splitNl rest [] else splitNl rest (c :: acc)

/-- `dropCR` of `bufio.ScanLines`. -/
def dropCR (l : List Char) : List Char :=
  if l.getLast? = some '\r' then l.dropLast else l

/-- Byte length of a line (Go counts UTF-8 bytes). -/
def lineBytes (l : List Char) : Nat :=
  (l.map Char.utf8Size).sum

/-- `bufio.MaxScanTokenSize`. -/
def maxScanTokenSize : Nat := 65536

/-- The token sequence produced by the scanner (when no line is too
long): the trailing empty chunk of an input ending in `'\n'` (or of the
empty input) yields no token. -/
def scanTokens (content : List Char) : List (List Char) :=
  let raw := splitNl content []
  (if raw.getLast? = some ([] : List Char) then raw.dropLast else raw).map dropCR

/-- `ParsePerfScript` (perfscript.go:48-145). -/
def parsePerfScript (content : String) : Except String (List Sample) :=
  if (splitNl content.data []).any (fun l => maxScanTokenSize ≤ lineBytes l) then
    .error "error scanning perf script output: bufio.Scanner: token too long"
  else
    .ok (flushCurrent ((scanTokens content.data).foldl processLine
          ⟨[], none⟩))

/-! ## Time windowing (`PartitionByTime`, perfscript.go:231-274) -/

/-- `TimeWindow` (perfscript.go:223-228). -/
structure TimeWindow where
  startTime : ℚ
  endTime : ℚ
  duration : ℚ
  samples : List Sample
deriving DecidableEq, Repr

/-- The minimum-timestamp scan of perfscript.go:237-247 (starts from
`samples[0].Timestamp`, then visits every sample). -/
def minTimestamp : List Sample → ℚ
  | [] => 0
  | s0 :: rest =>
    (s0 :: rest).foldl (fun m s => if s.timestamp < m then s.timestamp else m)
      s0.timestamp

/-- The maximum-timestamp scan of perfscript.go:237-247. -/
def maxTimestamp : List Sample → ℚ
  | [] => 0
  | s0 :: rest =>
    (s0 :: rest).foldl (fun m s => if m < s.timestamp then s.timestamp else m)
      s0.timestamp

/-- List update at an index (identity when out of range), used to model
`windows[windowIndex].Samples = append(...)`. -/
def modifyAt (f : α → α) : Nat → List α → List α
  | _, [] => []
  | 0, x :: xs => f x :: xs
  | n + 1, x :: xs => x :: modifyAt f n xs

/-- `int((sample.Timestamp - minTime) / windowSizeSeconds)`
(perfscript.go:267); the quotient is non-negative for in-range samples,
so Go's truncation towards zero is the floor. -/
def windowIdx (minTime size : ℚ) (s : Sample) : ℤ :=
  ⌊(s.timestamp - minTime) / size⌋

/-- The sample-assignment loop of perfscript.go:266-271. -/
def assignSamples (numWindows : Nat) (minTime size : ℚ)
    (samples : List Sample) (ws : List TimeWindow) : List TimeWindow :=
  samples.foldl
    (fun ws s =>
      let wi := windowIdx minTime size s
      if 0 ≤ wi ∧ wi < (numWindows : ℤ) then
        modifyAt (fun w => { w with samples := w.samples ++ [s] }) wi.toNat ws
      else ws)
    ws

/-- `PartitionByTime` (perfscript.go:231-274).  `numWindows` is
`int(totalDuration/windowSizeSeconds) + 1`; the duration is
non-negative, so the `int` conversion is `Int.toNat ∘ Int.floor`. -/
def partitionByTime (samples : List Sample) (windowSizeSeconds : ℚ) :
    List TimeWindow :=
  match samples with
  | [] => []
  | _ :: _ =>
    let minTime := minTimestamp samples
    let maxTime := maxTimestamp samples
    let numWindows : Nat := (⌊(maxTime - minTime) / windowSizeSeconds⌋).toNat + 1
    let ws := (List.range numWindows).map (fun i : ℕ =>
      { startTime := minTime + (i : ℚ) * windowSizeSeconds
      , endTime := minTime + (i : ℚ) * windowSizeSeconds + windowSizeSeconds
      , duration := windowSizeSeconds
      , samples := [] : TimeWindow })
    assignSamples numWindows minTime windowSizeSeconds samples ws

/-! ## Window aggregation (`GenerateHeatmap`, generator.go:98-148) -/

/-- `TimeWindowData` (generator.go:28-40).  Go maps become association
lists in first-insertion order; percentages are exact rationals. -/
structure TimeWindowData where
  windowIndex : Nat
  startTime : ℚ
  endTime : ℚ
  sampleCount : Nat
  functionCounts : List (String × Nat)
  threadCounts : List (Nat × Nat)
  categoryCounts : List (String × Nat)
  topFunction : String
  topFunctionPercent : ℚ
  kernelPercent : ℚ
  userlandPercent : ℚ
deriving DecidableEq, Repr

/-- `m[k]++` on an association list. -/
def bump [DecidableEq α] : List (α × Nat) → α → List (α × Nat)
  | [], k => [(k, 1)]
  | (k', v) :: rest, k =>
    if k' = k then (k', v + 1) :: rest else (k', v) :: bump rest k

/-- `v, ok := m[k]` on an association list. -/
def lookupCount [DecidableEq α] (m : List (α × Nat)) (k : α) : Option Nat :=
  (m.find? (fun e => e.1 = k)).map (·.2)

/-- Mutable locals of the per-window counting loop
(generator.go:111-129). -/
structure AggState where
  functionCounts : List (String × Nat)
  threadCounts : List (Nat × Nat)
  categoryCounts : List (String × Nat)
  kernelCount : Nat
  userlandCount : Nat

/-- One iteration of the counting loop (generator.go:114-129): tally
the thread, and — when the sample has a leaf frame (`GetTopFrame`) —
its symbol, its category and its kernel/userland flag. -/
def stepAgg (st : AggState) (s : Sample) : AggState :=
  let st := { st with threadCounts := bump st.threadCounts s.tid }
  match s.stack.head? with
  | some frame =>
    { st with
      functionCounts := bump st.functionCounts frame.symbol
      categoryCounts := bump st.categoryCounts (frameTypeStr frame.type)
      kernelCount := if frame.isKernel then st.kernelCount + 1 else st.kernelCount
      userlandCount :=
        if !frame.isKernel && frame.isUserland then st.userlandCount + 1
        else st.userlandCount }
  | none => st

/-- The top-function scan of generator.go:136-144 (`count > maxCount`,
so the first key reaching the maximum wins; Go iterates the map in an
unspecified order, the model uses first-insertion order). -/
def topFunctionOf (fc : List (String × Nat)) : String × Nat :=
  fc.foldl (fun best e => if best.2 < e.2 then (e.1, e.2) else best) ("", 0)

/-- The `TimeWindowData` built for window `i` (generator.go:100-147). -/
def mkTimeWindowData (i : Nat) (w : TimeWindow) : TimeWindowData :=
  let st := w.samples.foldl stepAgg ⟨[], [], [], 0, 0⟩
  let n := w.samples.length
  let top := topFunctionOf st.functionCounts
  { windowIndex := i
  , startTime := w.startTime
  , endTime := w.endTime
  , sampleCount := n
  , functionCounts := st.functionCounts
  , threadCounts := st.threadCounts
  , categoryCounts := st.categoryCounts
  , topFunction := if 0 < n then top.1 else ""
  , topFunctionPercent := if 0 < n then (top.2 : ℚ) / (n : ℚ) * 100 else 0
  , kernelPercent := if 0 < n then (st.kernelCount : ℚ) / (n : ℚ) * 100 else 0
  , userlandPercent := if 0 < n then (st.userlandCount : ℚ) / (n : ℚ) * 100 else 0 }

/-! ## Pattern detection (`detectPatterns`, generator.go:194-258) -/

/-- `Anomaly` (generator.go:51-57). -/
structure Anomaly where
  windowIndex : Nat
  type : String
  description : String
  severity : String
  value : ℚ
deriving DecidableEq, Repr

/-- `PatternDetection` (generator.go:43-48). -/
structure PatternDetection where
  lockContentionWindows : List Nat
  highSyscallWindows : List Nat
  cpuSpikes : List Nat
  anomalies : List Anomaly
deriving DecidableEq, Repr

/-- The lock-related substrings of generator.go:215. -/
def lockStrs : List String := ["pthread_mutex", "futex", "rwlock", "__lll_lock"]

/-- `containsAny` (generator.go:261-268); `findSubstring` is a brute
force substring search, so this is substring membership. -/
def containsAny (s : String) (subs : List String) : Bool :=
  subs.any (fun sub => listContains s.data sub.data)

/-- The lock tally of generator.go:212-218: sum of the function counts
whose key contains a lock-related substring (the `fnLower` local is
`fmt.Sprintf("%s", fn)`, i.e. the key unchanged). -/
def lockCount (w : TimeWindowData) : Nat :=
  (w.functionCounts.map (fun e => if containsAny e.1 lockStrs then e.2 else 0)).sum

/-- `lockCount > window.SampleCount/2` (generator.go:220, Go integer
division). -/
def lockHit (w : TimeWindowData) : Bool :=
  decide (w.sampleCount / 2 < lockCount w)

/-- `syscallCount, exists := window.CategoryCounts["kernel_core"]`
(generator.go:232). -/
def syscallCount (w : TimeWindowData) : Option Nat :=
  lookupCount w.categoryCounts "kernel_core"

/-- `exists && syscallCount > window.SampleCount*70/100`
(generator.go:233, Go integer arithmetic). -/
def syscallHit (w : TimeWindowData) : Bool :=
  match syscallCount w with
  | some sc => decide (w.sampleCount * 70 / 100 < sc)
  | none => false

/-- `float64(window.SampleCount) > avgSamples*1.5` (generator.go:245);
`1.5` is exact in binary floating point. -/
def spikeHit (avg : ℚ) (w : TimeWindowData) : Bool :=
  decide (avg * (3 / 2 : ℚ) < (w.sampleCount : ℚ))

/-- The anomaly appended by generator.go:222-228. -/
def mkLockAnomaly (i : Nat) (w : TimeWindowData) : Anomaly :=
  let lc := lockCount w
  let n := w.sampleCount
  { windowIndex := i
  , type := "lock_contention"
  , description := s!"High lock contention detected: {lc * 100 / n}% of samples"
  , severity := "high"
  , value := (lc : ℚ) / (n : ℚ) * 100 }

/-- The anomaly appended by generator.go:235-241.  The description
renders `KernelPercent` with `%.1f`; floating-point formatting is not
modelled, the claims only constrain the other fields. -/
def mkSyscallAnomaly (i : Nat) (w : TimeWindowData) : Anomaly :=
  { windowIndex := i
  , type := "high_syscall"
  , description := "High kernel/syscall activity"
  , severity := "medium"
  , value := w.kernelPercent }

/-- The anomaly appended by generator.go:247-253 (`%.0f` formatting of
the average is likewise not modelled). -/
def mkSpikeAnomaly (i : Nat) (w : TimeWindowData) : Anomaly :=
  { windowIndex := i
  , type := "cpu_spike"
  , description := "CPU usage spike"
  , severity := "medium"
  , value := (w.sampleCount : ℚ) }

/-- `detectPatterns` (generator.go:194-258).  The single loop appends,
per window and in window order, to the three index lists and to the
anomaly list; that is rendered as filters over the indexed window list
and a flat map for the anomalies, which produce the same lists in the
same order. -/
def detectPatterns (ws : List TimeWindowData) : PatternDetection :=
  let totalSamples := (ws.map (·.sampleCount)).sum
  let avgSamples : ℚ := (totalSamples : ℚ) / (ws.length : ℚ)
  { lockContentionWindows := ((ws.enum).filter (fun e => lockHit e.2)).map (·.1)
  , highSyscallWindows := ((ws.enum).filter (fun e => syscallHit e.2)).map (·.1)
  , cpuSpikes := ((ws.enum).filter (fun e => spikeHit avgSamples e.2)).map (·.1)
  , anomalies := (ws.enum).flatMap (fun e =>
      (if lockHit e.2 then [mkLockAnomaly e.1 e.2] else []) ++
      (if syscallHit e.2 then [mkSyscallAnomaly e.1 e.2] else []) ++
      (if spikeHit avgSamples e.2 then [mkSpikeAnomaly e.1 e.2] else [])) }

/-! ## Heatmap generation (`GenerateHeatmap`, generator.go:60-191)

The HTML/JSON rendering and file writing are I/O outside the
embedding; the function is modelled as producing the in-memory
`HeatmapData` and `PatternDetection` it would serialize, or the
explicit error of generator.go:61-63. -/

/-- `HeatmapData` (generator.go:15-25). -/
structure HeatmapData where
  timeWindows : List TimeWindowData
  functions : List String
  threads : List Nat
  windowSize : ℚ
  totalDuration : ℚ
  totalSamples : Nat
  processName : String
  pid : Nat
deriving Repr

/-- `GenerateHeatmap` (generator.go:60-191) up to serialization. -/
def generateHeatmap (samples : List Sample) (processName : String)
    (pid : Nat) (windowSize : ℚ) : Except String (HeatmapData × PatternDetection) :=
  if samples.length = 0 then
    .error "no samples to analyze"
  else
    let windows := partitionByTime samples windowSize
    let functions :=
      ((samples.filterMap (fun s => (s.stack.head?).map (·.symbol))).dedup).mergeSort
        (fun a b => a ≤ b)
    let threads := ((samples.map (·.tid)).dedup).mergeSort (fun a b => a ≤ b)
    let totalDuration : ℚ :=
      match windows.head?, windows.getLast? with
      | some h, some l => l.endTime - h.startTime
      | _, _ => 0
    let timeWindowsData := (windows.enum).map (fun e => mkTimeWindowData e.1 e.2)
    let patterns := detectPatterns timeWindowsData
    .ok
      ({ timeWindows := timeWindowsData
       , functions := functions
       , threads := threads
       , windowSize := windowSize
       , totalDuration := totalDuration
       , totalSamples := samples.length
       , processName := processName
       , pid := pid }, patterns)

/-! ## Derived predicates used by the theorems -/

/-- Mutual exclusion of the kernel/userland flags of a frame. -/
def frameOk (f : StackFrame) : Bool := !(f.isKernel && f.isUserland)

/-- A line none of the three patterns of `ParsePerfScript` recognizes
(for a stack frame line, recognition additionally requires the tab
prefix checked at perfscript.go:118). -/
abbrev unrecognizedLine (l : List Char) : Prop :=
  regexCaps headerRegex1 l = none ∧ regexCaps headerRegex2 l = none ∧
    (l.head? ≠ some '\t' ∨ regexCaps stackRegex l = none)

/-! ## Concrete fixtures -/

/-- A format-1 header followed by one tab-indented frame line. -/
def exC7 : String := "mysqld 10/11 [002] 4.5: 99 cpu-clock:\n\tab f+0x1 (m.so)"

/-- The frame parsed from the frame line of `exC7`. -/
def exC7Frame : StackFrame := mkFrame "ab" "f" "1" "m.so"

/-- The sample parsed from `exC7` (the timestamp is written as the
parse of the digits `4.5`, i.e. the rational `9/2`; `Rat` arithmetic
is kept unevaluated because the kernel does not reduce it). -/
def exC7Sample : Sample :=
  { command := "mysqld", pid := 10, tid := 11, cpu := 2
  , timestamp := parseTimestamp ['4', '.', '5']
  , event := "cpu-clock", stack := [exC7Frame] }

/-- The format-1 header of the spec's concrete example followed by
three tab-indented stack frame lines. -/
def ex1 : String :=
  "mysqld 12345/12346 [001] 123456.789012:     999999 cpu-clock:\n" ++
  "\t    7ffff7a0d000 __pthread_mutex_lock+0x0 (/lib/x86_64-linux-gnu/libpthread-2.31.so)\n" ++
  "\tffffffff81234567 do_syscall_64+0x57 ([kernel.kallsyms])\n" ++
  "\t    5555555a1b2c main+0x1c (/usr/sbin/mysqld)"

/-- The three frames of `ex1`, in line order. -/
def ex1Frame1 : StackFrame :=
  mkFrame "7ffff7a0d000" "__pthread_mutex_lock" "0"
    "/lib/x86_64-linux-gnu/libpthread-2.31.so"

def ex1Frame2 : StackFrame :=
  mkFrame "ffffffff81234567" "do_syscall_64" "57" "[kernel.kallsyms]"

def ex1Frame3 : StackFrame :=
  mkFrame "5555555a1b2c" "main" "1c" "/usr/sbin/mysqld"

/-- The sample parsed from `ex1`. -/
def ex1Sample : Sample :=
  { command := "mysqld", pid := 12345, tid := 12346, cpu := 1
  , timestamp := parseTimestamp "123456.789012".data
  , event := "cpu-clock", stack := [ex1Frame1, ex1Frame2, ex1Frame3] }

/-- A stack-shaped line indented with four spaces instead of a tab. -/
def spaceLine : String := "    5555555a1b2c main+0x1c (/usr/sbin/mysqld)"

/-- The `ex1` header followed by the space-indented frame line. -/
def exSpace : String :=
  "mysqld 12345/12346 [001] 123456.789012:     999999 cpu-clock:\n" ++ spaceLine

/-- The sample parsed from `exSpace`: the header opened it, but the
space-indented frame line was ignored. -/
def exSpaceSample : Sample :=
  { command := "mysqld", pid := 12345, tid := 12346, cpu := 1
  , timestamp := parseTimestamp "123456.789012".data
  , event := "cpu-clock", stack := [] }

/-- A sample whose leaf frame is a lock-related pthread symbol. -/
def lockSampleA : Sample :=
  { command := "a", pid := 1, tid := 1, cpu := 0, timestamp := 0, event := "e"
  , stack := [mkFrame "0" "pthread_mutex_lock" "" "/usr/lib/libpthread.so"] }

/-- A sample whose leaf frame is a futex symbol. -/
def lockSampleB : Sample :=
  { command := "a", pid := 1, tid := 1, cpu := 0, timestamp := 0, event := "e"
  , stack := [mkFrame "0" "futex_wait" "" "/usr/lib/libpthread.so"] }

/-- A sample whose leaf frame is an ordinary application symbol. -/
def plainSample : Sample :=
  { command := "a", pid := 1, tid := 1, cpu := 0, timestamp := 0, event := "e"
  , stack := [mkFrame "0" "main" "" "/usr/bin/app"] }

/-- A sample whose leaf frame is a kernel symbol. -/
def kernSample : Sample :=
  { command := "a", pid := 1, tid := 1, cpu := 0, timestamp := 0, event := "e"
  , stack := [mkFrame "0" "do_syscall_64" "57" "[kernel.kallsyms]"] }

/-- A window with two lock-related leaves out of three samples. -/
def wLock : TimeWindow := ⟨0, 1, 1, [lockSampleA, lockSampleB, plainSample]⟩

/-- A window whose four samples all have kernel leaves. -/
def wKern : TimeWindow := ⟨0, 1, 1, [kernSample, kernSample, kernSample, kernSample]⟩

/-- A window with no samples. -/
def wEmpty : TimeWindow := ⟨0, 1, 1, []⟩

/-- Invariant of the scanner loop: every frame of every flushed or open
sample has mutually exclusive flags. -/
def stateOk (st : PState) : Prop :=
  (∀ smp ∈ st.samples, ∀ f ∈ smp.stack, frameOk f = true) ∧
    (∀ smp, st.current = some smp → ∀ f ∈ smp.stack, frameOk f = true)

/-! ## Claim about heatmap generation on empty input -/

/-- Claim C9 (confirmed): heatmap generation over an empty sample
sequence returns the explicit error `"no samples to analyze"`
immediately (the `Except.error` carries no report data). -/
theorem C9_empty_input_error (processName : String) (pid : Nat) (windowSize : ℚ) :
    generateHeatmap [] processName pid windowSize = .error "no samples to analyze" := rfl

/-! ## Helper lemmas -/

theorem classify_flags_exclusive (m s : String) :
    ((classifyFrame m s).2.1 && (classifyFrame m s).2.2) = false := by
  unfold classifyFrame
  dsimp only
  split_ifs <;> simp

theorem mkFrame_ok (a b c d : String) : frameOk (mkFrame a b c d) = true := by
  dsimp only [frameOk, mkFrame]
  rw [classify_flags_exclusive]
  rfl

theorem stateOk_flush {st : PState} (h : stateOk st) :
    ∀ smp ∈ flushCurrent st, ∀ f ∈ smp.stack, frameOk f = true := by
  obtain ⟨h1, h2⟩ := h
  intro smp hsmp
  unfold flushCurrent at hsmp
  rcases hc : st.current with _ | cur <;> rw [hc] at hsmp
  · exact h1 smp hsmp
  · rcases List.mem_append.1 hsmp with h | h
    · exact h1 smp h
    · simp only [List.mem_singleton] at h
      subst h
      exact h2 smp hc

theorem stateOk_processLine {st : PState} (l : List Char) (h : stateOk st) :
    stateOk (processLine st l) := by
  obtain ⟨h1, h2⟩ := h
  unfold processLine
  rcases e1 : regexCaps headerRegex1 l with _ | caps1
  case some =>
    refine ⟨stateOk_flush ⟨h1, h2⟩, ?_⟩
    intro smp hsmp
    simp only [Option.some.injEq] at hsmp
    subst hsmp
    simp
  case none =>
  rcases e2 : regexCaps headerRegex2 l with _ | caps2
  case some =>
    refine ⟨stateOk_flush ⟨h1, h2⟩, ?_⟩
    intro smp hsmp
    simp only [Option.some.injEq] at hsmp
    subst hsmp
    simp
  case none =>
  rcases ec : st.current with _ | cur
  · exact ⟨h1, h2⟩
  · dsimp only
    by_cases ht : l.head? = some '\t'
    · rw [if_pos ht]
      rcases es : regexCaps stackRegex l with _ | caps
      · exact ⟨h1, h2⟩
      · refine ⟨h1, ?_⟩
        intro smp hsmp
        simp only [Option.some.injEq] at hsmp
        subst hsmp
        intro f hf
        simp only [List.mem_append, List.mem_singleton] at hf
        rcases hf with hf | hf
        · exact h2 cur ec f hf
        · subst hf
          exact mkFrame_ok _ _ _ _
    · rw [if_neg ht]
      exact ⟨h1, h2⟩

theorem stateOk_foldl (lines : List (List Char)) (st : PState) (h : stateOk st) :
    stateOk (lines.foldl processLine st) := by
  induction lines generalizing st with
  | nil => exact h
  | cons l rest ih => exact ih _ (stateOk_processLine l h)

/-! ## Lemmas about line recognition and the scanner -/

theorem processLine_unrecognized (st : PState) (l : List Char)
    (h : unrecognizedLine l) : processLine st l = st := by
  obtain ⟨h1, h2, h3⟩ := h
  unfold processLine
  simp only [h1, h2]
  rcases hc : st.current with _ | cur
  · rfl
  · dsimp only
    rcases h3 with h3 | h3
    · rw [if_neg h3]
    · by_cases ht : l.head? = some '\t'
      · rw [if_pos ht, h3]
      · rw [if_neg ht]

theorem foldl_unrecognized (lines : List (List Char)) (st : PState)
    (h : ∀ l ∈ lines, unrecognizedLine l) :
    lines.foldl processLine st = st := by
  induction lines generalizing st with
  | nil => rfl
  | cons l rest ih =>
    rw [List.foldl_cons, processLine_unrecognized st l (h l (by simp)),
      ih st (fun l hl => h l (by simp [hl]))]

theorem splitNl_no_newline (l : List Char) (h : ∀ c ∈ l, c ≠ '\n') (acc : List Char) :
    splitNl l acc = [acc.reverse ++ l] := by
  induction l generalizing acc with
  | nil => simp [splitNl]
  | cons c t ih =>
    have hc : ¬(c = '\n') := h c (by simp)
    rw [splitNl, if_neg hc, ih (fun x hx => h x (by simp [hx])) (c :: acc)]
    simp

theorem lineBytes_replicate (n : Nat) : lineBytes (List.replicate n 'a') = n := by
  rw [lineBytes, List.map_replicate]
  have : Char.utf8Size 'a' = 1 := rfl
  rw [this, List.sum_replicate, smul_eq_mul, mul_one]

/-! ## Claims about the parser's error behaviour -/

/-- Claim C2 (corrected) — counterexample: an input consisting of one
line of 65536 bytes makes `ParsePerfScript` return the scanner's
token-too-long error (`bufio.Scanner` stops with `ErrTooLong` once
64 KiB of buffered data contain no newline, and perfscript.go:140-142
turns that into an error return). -/
theorem C2_counterexample :
    parsePerfScript (String.mk (List.replicate 65536 'a')) =
      .error "error scanning perf script output: bufio.Scanner: token too long" := by
  have hnl : ∀ c ∈ List.replicate 65536 'a', c ≠ '\n' := by
    intro c hc
    rw [List.eq_of_mem_replicate hc]
    decide
  have hs : splitNl (String.mk (List.replicate 65536 'a')).data [] =
      [List.replicate 65536 'a'] := by
    show splitNl (List.replicate 65536 'a') [] = _
    rw [splitNl_no_newline _ hnl []]
    rfl
  unfold parsePerfScript
  rw [hs, if_pos]
  simp only [List.any_cons, List.any_nil, Bool.or_false, lineBytes_replicate]
  decide

/-- Claim C2 (corrected, amended): for every input string whose lines
are each shorter than the 65536-byte scanner token limit,
`ParsePerfScript` returns an ordered sample sequence and no error; the
empty string and inputs of only unrecognized lines yield `[]` with no
error, and an unrecognized line leaves the parser state untouched, so
unrecognized lines anywhere are skipped without aborting the parse. -/
theorem C2_no_error_amended :
    (∀ content : String,
      (∀ l ∈ splitNl content.data [], lineBytes l < maxScanTokenSize) →
      ∃ res, parsePerfScript content = .ok res) ∧
    parsePerfScript "" = .ok [] ∧
    (∀ content : String,
      (∀ l ∈ splitNl content.data [], lineBytes l < maxScanTokenSize) →
      (∀ l ∈ scanTokens content.data, unrecognizedLine l) →
      parsePerfScript content = .ok []) ∧
    (∀ (st : PState) (l : List Char), unrecognizedLine l → processLine st l = st) := by
  have hok : ∀ content : String,
      (∀ l ∈ splitNl content.data [], lineBytes l < maxScanTokenSize) →
      ¬((splitNl content.data []).any (fun l => maxScanTokenSize ≤ lineBytes l) = true) := by
    intro content h hany
    simp only [List.any_eq_true, decide_eq_true_eq] at hany
    obtain ⟨l, hl, hge⟩ := hany
    exact absurd (h l hl) (by omega)
  refine ⟨?_, rfl, ?_, processLine_unrecognized⟩
  · intro content h
    exact ⟨_, by unfold parsePerfScript; rw [if_neg (hok content h)]⟩
  · intro content h hunrec
    unfold parsePerfScript
    rw [if_neg (hok content h), foldl_unrecognized _ _ hunrec]
    rfl

/-- Witness for the amended C2: a one-line garbage input parses to the
empty sample sequence with no error. -/
theorem C2_witness : parsePerfScript "random garbage" = .ok [] :=
  C2_no_error_amended.2.2.1 "random garbage" (by decide) (by decide)

theorem exC7Sample_timestamp : exC7Sample.timestamp = 9 / 2 := by
  have h : exC7Sample.timestamp = ((4 : ℕ) : ℚ) + ((5 : ℕ) : ℚ) / 10 ^ (1 : ℕ) := rfl
  rw [h]
  norm_num

/-! ## Claims about the frame classifier -/

/-- Claim C7 (confirmed): the classifier never returns
`isKernel = true` and `isUserland = true` simultaneously, and every
frame of every sample produced by the parser inherits this mutual
exclusion. -/
theorem C7_kernel_userland_exclusive :
    (∀ m s : String, ((classifyFrame m s).2.1 && (classifyFrame m s).2.2) = false) ∧
    (∀ (content : String) (res : List Sample), parsePerfScript content = .ok res →
      ∀ smp ∈ res, ∀ f ∈ smp.stack, (f.isKernel && f.isUserland) = false) := by
  refine ⟨classify_flags_exclusive, ?_⟩
  intro content res h smp hsmp f hf
  have init : stateOk ⟨[], none⟩ :=
    ⟨fun smp h => absurd h (List.not_mem_nil _), fun smp h => Option.noConfusion h⟩
  have hst := stateOk_foldl (scanTokens content.data) ⟨[], none⟩ init
  unfold parsePerfScript at h
  split at h
  · exact absurd h (by simp)
  · simp only [Except.ok.injEq] at h
    subst h
    have := stateOk_flush hst smp hsmp f hf
    rwa [frameOk, Bool.not_eq_true'] at this

/-- Witness for C7: the hypotheses of the parser part hold at the
concrete input `exC7`. -/
theorem C7_witness : (exC7Frame.isKernel && exC7Frame.isUserland) = false :=
  C7_kernel_userland_exclusive.2 exC7 [exC7Sample] (by rfl) exC7Sample
    (by simp) exC7Frame (by simp [exC7Sample])

/-- Claim C10 (confirmed): the classifier returns `isKernel = true`
exactly when the returned category is `kernel_core` or
`kernel_driver`. -/
theorem C10_kernel_flag_iff_category (m s : String) :
    (classifyFrame m s).2.1 = true ↔
      ((classifyFrame m s).1 = FrameType.kernel_core ∨
        (classifyFrame m s).1 = FrameType.kernel_driver) := by
  unfold classifyFrame
  dsimp only
  split_ifs <;> simp

/-- Claim C6 (corrected) — counterexample: the module `"[libpthread]"`
contains `"libpthread"` but is classified `kernel_driver` with
`isKernel = true`, because the bracketed-module rule fires first. -/
theorem C6_counterexample :
    strContains (strToLower "[libpthread]") "libpthread" = true ∧
    classifyFrame "[libpthread]" "worker" = (FrameType.kernel_driver, true, false) ∧
    classifyFrame "[libpthread]" "worker" ≠ (FrameType.libpthread, false, true) := by
  decide

/-- Claim C6 (corrected, amended): a frame whose module contains
`"libpthread"` (case-insensitively) is classified libpthread with
`isUserland = true` and `isKernel = false`, provided the module does
not match the earlier kernel, bracketed-module or libc rules. -/
theorem C6_libpthread_amended (m s : String)
    (hp : strContains (strToLower m) "libpthread" = true)
    (hk1 : strContains (strToLower m) "kernel.kallsyms" = false)
    (hk2 : strContains (strToLower m) "[kernel" = false)
    (hk3 : strContains (strToLower m) "vmlinux" = false)
    (hbr : (strHasPre (strToLower m) "[" && strHasSuf (strToLower m) "]") = false)
    (hlc : (strContains (strToLower m) "libc" &&
        (strContains (strToLower m) ".so" || strContains (strToLower m) "libc-")) = false) :
    classifyFrame m s = (FrameType.libpthread, false, true) := by
  unfold classifyFrame
  dsimp only
  simp [hp, hk1, hk2, hk3, hbr, hlc]

/-- Witness for the amended C6 at a realistic libpthread module. -/
theorem C6_witness :
    classifyFrame "/lib/x86_64-linux-gnu/libpthread-2.31.so" "__pthread_mutex_lock" =
      (FrameType.libpthread, false, true) :=
  C6_libpthread_amended _ _ (by decide) (by decide) (by decide) (by decide)
    (by decide) (by decide)

/-! ## Claim C5: stack-frame lines -/

/-- Claim C5 (corrected) — counterexample: a line that begins with
indentation (four spaces), matches no header, and matches the
stack-frame shape is nevertheless NOT appended to the open sample's
stack, because perfscript.go:118 demands a tab prefix: parsing the
header followed by that line yields a sample with an empty stack. -/
theorem C5_counterexample :
    spaceLine.data.head? = some ' ' ∧
    (regexCaps stackRegex spaceLine.data).isSome = true ∧
    regexCaps headerRegex1 spaceLine.data = none ∧
    regexCaps headerRegex2 spaceLine.data = none ∧
    parsePerfScript exSpace = .ok [exSpaceSample] ∧
    exSpaceSample.stack = [] :=
  ⟨rfl, by decide, by decide, by decide, rfl, rfl⟩

/-- Claim C5 (corrected, amended): every line beginning with a TAB
character that matches no header and matches the stack-frame pattern
is appended, in encounter order, to the currently open sample's stack;
such a line is ignored when no sample is open; and the format-1 header
of the spec's example followed by three tab-indented frame lines
parses to exactly one sample with `pid = 12345`, `tid = 12346`,
`cpu = 1` and the three frames in encounter order. -/
theorem C5_stack_frame_lines :
    (∀ (st : PState) (cur : Sample) (line : List Char)
        (caps : List (Nat × Nat × Nat)),
      st.current = some cur →
      regexCaps headerRegex1 line = none →
      regexCaps headerRegex2 line = none →
      line.head? = some '\t' →
      regexCaps stackRegex line = some caps →
      processLine st line =
        { st with current := some { cur with stack := cur.stack ++
            [mkFrame (capStr line caps 1) (capStr line caps 2)
              (capStr line caps 3) (capStr line caps 4)] } }) ∧
    (∀ (st : PState) (line : List Char),
      st.current = none →
      regexCaps headerRegex1 line = none →
      regexCaps headerRegex2 line = none →
      processLine st line = st) ∧
    (parsePerfScript ex1 = .ok [ex1Sample] ∧
      ex1Sample.pid = 12345 ∧ ex1Sample.tid = 12346 ∧ ex1Sample.cpu = 1 ∧
      ex1Sample.stack = [ex1Frame1, ex1Frame2, ex1Frame3]) := by
  refine ⟨?_, ?_, rfl, rfl, rfl, rfl, rfl⟩
  · intro st cur line caps hcur h1 h2 ht hs
    unfold processLine
    simp only [h1, h2, hcur]
    rw [if_pos ht]
    simp only [hs]
  · intro st line hcur h1 h2
    unfold processLine
    simp only [h1, h2, hcur]

/-- Witness for the amended C5: appending a concrete tab-indented
frame line to a concrete open sample. -/
theorem C5_witness :
    processLine ⟨[], some exSpaceSample⟩
        "\t    5555555a1b2c main+0x1c (/usr/sbin/mysqld)".data =
      ⟨[], some { exSpaceSample with stack := [ex1Frame3] }⟩ := by
  have h := C5_stack_frame_lines.1 ⟨[], some exSpaceSample⟩ exSpaceSample
    "\t    5555555a1b2c main+0x1c (/usr/sbin/mysqld)".data
    [(4, 29, 45), (3, 25, 27), (2, 18, 22), (1, 5, 17)]
    rfl (by decide) (by decide) rfl (by decide)
  exact h.trans (by rfl)

/-! ## Lemmas about the pattern detector -/

theorem mem_detect_list (p : TimeWindowData → Bool) (ws : List TimeWindowData)
    (i : Nat) :
    (i ∈ ((ws.enum.filter (fun e => p e.2)).map (·.1)) ↔
      ∃ h : i < ws.length, p (ws.get ⟨i, h⟩) = true) := by
  simp only [List.mem_map, List.mem_filter]
  constructor
  · rintro ⟨⟨j, w⟩, ⟨hmem, hp⟩, hj⟩
    cases hj
    rw [List.mk_mem_enum_iff_get?, List.get?_eq_some] at hmem
    obtain ⟨h, hw⟩ := hmem
    exact ⟨h, by rwa [hw]⟩
  · rintro ⟨h, hp⟩
    refine ⟨(i, ws.get ⟨i, h⟩), ⟨?_, hp⟩, rfl⟩
    rw [List.mk_mem_enum_iff_get?, List.get?_eq_some]
    exact ⟨h, rfl⟩

theorem mem_enum_of_lt (ws : List TimeWindowData) (i : Nat) (h : i < ws.length) :
    (i, ws.get ⟨i, h⟩) ∈ ws.enum := by
  rw [List.mk_mem_enum_iff_get?, List.get?_eq_some]
  exact ⟨h, rfl⟩

theorem lockHit_iff (w : TimeWindowData) :
    lockHit w = true ↔ (w.sampleCount : ℚ) * 50 / 100 < (lockCount w : ℚ) := by
  rw [lockHit, decide_eq_true_iff, Nat.div_lt_iff_lt_mul two_pos]
  rw [show ((w.sampleCount : ℚ) * 50 / 100) = (w.sampleCount : ℚ) / 2 by ring]
  rw [div_lt_iff (by norm_num : (0 : ℚ) < 2)]
  exact_mod_cast Iff.rfl

theorem syscallHit_iff (w : TimeWindowData) :
    syscallHit w = true ↔
      (w.sampleCount : ℚ) * 70 / 100 < (((syscallCount w).getD 0 : ℕ) : ℚ) := by
  rw [syscallHit]
  rcases hsc : syscallCount w with _ | sc
  · simp only [hsc, Option.getD_none, Nat.cast_zero]
    constructor
    · intro h; exact absurd h (by simp)
    · intro h
      exact absurd h (not_lt.2 (by positivity))
  · simp only [hsc, Option.getD_some, decide_eq_true_iff]
    rw [Nat.div_lt_iff_lt_mul (by norm_num : 0 < 100)]
    rw [div_lt_iff (by norm_num : (0 : ℚ) < 100)]
    exact_mod_cast Iff.rfl

theorem bump_total [DecidableEq α] (m : List (α × Nat)) (k : α) :
    ((bump m k).map (·.2)).sum = (m.map (·.2)).sum + 1 := by
  induction m with
  | nil => rfl
  | cons e rest ih =>
    obtain ⟨k', v⟩ := e
    by_cases h : k' = k
    · rw [bump, if_pos h]
      simp only [List.map_cons, List.sum_cons]
      omega
    · rw [bump, if_neg h]
      simp only [List.map_cons, List.sum_cons, ih]
      omega

/-- Total of the per-symbol tallies accumulated by the counting loop,
bounded by the number of samples folded in. -/
theorem functionCounts_total_le (samples : List Sample) (st : AggState) :
    ((samples.foldl stepAgg st).functionCounts.map (·.2)).sum ≤
      (st.functionCounts.map (·.2)).sum + samples.length := by
  induction samples generalizing st with
  | nil => simp
  | cons s rest ih =>
    rw [List.foldl_cons]
    refine le_trans (ih (stepAgg st s)) ?_
    have hstep : ((stepAgg st s).functionCounts.map (·.2)).sum ≤
        (st.functionCounts.map (·.2)).sum + 1 := by
      rw [stepAgg]
      rcases s.stack.head? with _ | f
      · simp
      · simp [bump_total]
    simp only [List.length_cons]
    omega

theorem categoryCounts_total_le (samples : List Sample) (st : AggState) :
    ((samples.foldl stepAgg st).categoryCounts.map (·.2)).sum ≤
      (st.categoryCounts.map (·.2)).sum + samples.length := by
  induction samples generalizing st with
  | nil => simp
  | cons s rest ih =>
    rw [List.foldl_cons]
    refine le_trans (ih (stepAgg st s)) ?_
    have hstep : ((stepAgg st s).categoryCounts.map (·.2)).sum ≤
        (st.categoryCounts.map (·.2)).sum + 1 := by
      rw [stepAgg]
      rcases s.stack.head? with _ | f
      · simp
      · simp [bump_total]
    simp only [List.length_cons]
    omega

theorem lockCount_le_total (w : TimeWindowData) :
    lockCount w ≤ (w.functionCounts.map (·.2)).sum := by
  rw [lockCount]
  refine List.sum_le_sum ?_
  intro e _
  split_ifs <;> simp

theorem lookupCount_le_total [DecidableEq α] (m : List (α × Nat)) (k : α) :
    ((lookupCount m k).getD 0) ≤ (m.map (·.2)).sum := by
  rw [lookupCount]
  induction m with
  | nil => simp
  | cons e rest ih =>
    by_cases h : e.1 = k
    · rw [List.find?_cons_of_pos _ (by simpa using h)]
      simp
    · rw [List.find?_cons_of_neg _ (by simpa using h)]
      simp only [List.map_cons, List.sum_cons]
      omega

/-- Per-window tallies of a built aggregate are bounded by its sample
count. -/
theorem mk_lockCount_le (i : Nat) (tw : TimeWindow) :
    lockCount (mkTimeWindowData i tw) ≤ (mkTimeWindowData i tw).sampleCount := by
  have h1 := lockCount_le_total (mkTimeWindowData i tw)
  have h2 := functionCounts_total_le tw.samples ⟨[], [], [], 0, 0⟩
  simp only [mkTimeWindowData] at *
  simp only [List.map_nil, List.sum_nil, Nat.zero_add] at h2
  exact le_trans h1 h2

theorem mk_syscall_le (i : Nat) (tw : TimeWindow) :
    ((syscallCount (mkTimeWindowData i tw)).getD 0) ≤
      (mkTimeWindowData i tw).sampleCount := by
  have h1 := lookupCount_le_total
    ((mkTimeWindowData i tw).categoryCounts) "kernel_core"
  have h2 := categoryCounts_total_le tw.samples ⟨[], [], [], 0, 0⟩
  simp only [syscallCount, mkTimeWindowData] at *
  simp only [List.map_nil, List.sum_nil, Nat.zero_add] at h2
  exact le_trans h1 h2

/-! ## Claims about the pattern detector -/

/-- Claim C3 (confirmed): over the aggregates built from any window
sequence, the detector flags window `i` as `lock_contention` exactly
when its summed lock-related function tally strictly exceeds 50% of
its sample count (the Go integer comparison `lockCount > n/2` is
equivalent to the strict rational comparison), and a flagged window
contributes an anomaly of type `lock_contention`, severity `high`,
whose value is the lock-related percentage. -/
theorem C3_lock_contention (tws : List TimeWindow) (i : Nat)
    (hi : i < tws.length) :
    (i ∈ (detectPatterns ((tws.enum).map fun e =>
        mkTimeWindowData e.1 e.2)).lockContentionWindows ↔
      ((mkTimeWindowData i (tws.get ⟨i, hi⟩)).sampleCount : ℚ) * 50 / 100 <
        (lockCount (mkTimeWindowData i (tws.get ⟨i, hi⟩)) : ℚ)) ∧
    (((mkTimeWindowData i (tws.get ⟨i, hi⟩)).sampleCount : ℚ) * 50 / 100 <
        (lockCount (mkTimeWindowData i (tws.get ⟨i, hi⟩)) : ℚ) →
      ∃ a ∈ (detectPatterns ((tws.enum).map fun e =>
          mkTimeWindowData e.1 e.2)).anomalies,
        a.windowIndex = i ∧ a.type = "lock_contention" ∧ a.severity = "high" ∧
          a.value = (lockCount (mkTimeWindowData i (tws.get ⟨i, hi⟩)) : ℚ) /
            ((mkTimeWindowData i (tws.get ⟨i, hi⟩)).sampleCount : ℚ) * 100) := by
  set ws := (tws.enum).map fun e => mkTimeWindowData e.1 e.2 with hws
  have hlen : ws.length = tws.length := by simp [hws]
  have hwi : ∀ h : i < ws.length, ws.get ⟨i, h⟩ =
      mkTimeWindowData i (tws.get ⟨i, hi⟩) := by
    intro h
    simp [hws, List.get_map, List.get_enum]
  constructor
  · rw [detectPatterns]
    dsimp only
    rw [mem_detect_list]
    constructor
    · rintro ⟨h, hp⟩
      rw [hwi h] at hp
      exact (lockHit_iff _).1 hp
    · intro h
      exact ⟨by omega, by rw [hwi (by omega)]; exact (lockHit_iff _).2 h⟩
  · intro h
    have hhit : lockHit (mkTimeWindowData i (tws.get ⟨i, hi⟩)) = true :=
      (lockHit_iff _).2 h
    refine ⟨mkLockAnomaly i (mkTimeWindowData i (tws.get ⟨i, hi⟩)), ?_,
      rfl, rfl, rfl, rfl⟩
    rw [detectPatterns]
    dsimp only
    rw [List.mem_flatMap]
    refine ⟨(i, mkTimeWindowData i (tws.get ⟨i, hi⟩)), ?_, ?_⟩
    · have := mem_enum_of_lt ws i (by omega)
      rwa [hwi (by omega)] at this
    · rw [hhit]
      simp

/-- Claim C4 (confirmed): over the aggregates built from any window
sequence, the detector flags window `i` as `high_syscall` exactly when
its `kernel_core` category tally strictly exceeds 70% of its sample
count (the Go integer comparison `syscallCount > n*70/100` is
equivalent to the strict rational comparison), and a flagged window
contributes an anomaly of type `high_syscall`, severity `medium`,
whose value is the window's `kernelPercent`. -/
theorem C4_high_syscall (tws : List TimeWindow) (i : Nat)
    (hi : i < tws.length) :
    (i ∈ (detectPatterns ((tws.enum).map fun e =>
        mkTimeWindowData e.1 e.2)).highSyscallWindows ↔
      ((mkTimeWindowData i (tws.get ⟨i, hi⟩)).sampleCount : ℚ) * 70 / 100 <
        (((syscallCount (mkTimeWindowData i (tws.get ⟨i, hi⟩))).getD 0 : ℕ) : ℚ)) ∧
    (((mkTimeWindowData i (tws.get ⟨i, hi⟩)).sampleCount : ℚ) * 70 / 100 <
        (((syscallCount (mkTimeWindowData i (tws.get ⟨i, hi⟩))).getD 0 : ℕ) : ℚ) →
      ∃ a ∈ (detectPatterns ((tws.enum).map fun e =>
          mkTimeWindowData e.1 e.2)).anomalies,
        a.windowIndex = i ∧ a.type = "high_syscall" ∧ a.severity = "medium" ∧
          a.value = (mkTimeWindowData i (tws.get ⟨i, hi⟩)).kernelPercent) := by
  set ws := (tws.enum).map fun e => mkTimeWindowData e.1 e.2 with hws
  have hlen : ws.length = tws.length := by simp [hws]
  have hwi : ∀ h : i < ws.length, ws.get ⟨i, h⟩ =
      mkTimeWindowData i (tws.get ⟨i, hi⟩) := by
    intro h
    simp [hws, List.get_map, List.get_enum]
  constructor
  · rw [detectPatterns]
    dsimp only
    rw [mem_detect_list]
    constructor
    · rintro ⟨h, hp⟩
      rw [hwi h] at hp
      exact (syscallHit_iff _).1 hp
    · intro h
      exact ⟨by omega, by rw [hwi (by omega)]; exact (syscallHit_iff _).2 h⟩
  · intro h
    have hhit : syscallHit (mkTimeWindowData i (tws.get ⟨i, hi⟩)) = true :=
      (syscallHit_iff _).2 h
    refine ⟨mkSyscallAnomaly i (mkTimeWindowData i (tws.get ⟨i, hi⟩)), ?_,
      rfl, rfl, rfl, rfl⟩
    rw [detectPatterns]
    dsimp only
    rw [List.mem_flatMap]
    refine ⟨(i, mkTimeWindowData i (tws.get ⟨i, hi⟩)), ?_, ?_⟩
    · have := mem_enum_of_lt ws i (by omega)
      rwa [hwi (by omega)] at this
    · rw [hhit]
      rcases hl : lockHit (mkTimeWindowData i (tws.get ⟨i, hi⟩)) <;> simp [hl]

/-- Claim C8 (confirmed): a window with zero samples is never flagged
`lock_contention` or `high_syscall`; any flagged window has a strictly
positive sample count, so the percentage computations in those anomaly
branches never divide by zero; and when the mean sample count across
all windows is zero, no window is flagged `cpu_spike`. -/
theorem C8_degenerate_guards (tws : List TimeWindow) :
    (∀ (i : Nat) (hi : i < tws.length), (tws.get ⟨i, hi⟩).samples = [] →
      lockHit (mkTimeWindowData i (tws.get ⟨i, hi⟩)) = false ∧
      syscallHit (mkTimeWindowData i (tws.get ⟨i, hi⟩)) = false) ∧
    (∀ (i : Nat) (tw : TimeWindow),
      (lockHit (mkTimeWindowData i tw) = true →
        0 < (mkTimeWindowData i tw).sampleCount) ∧
      (syscallHit (mkTimeWindowData i tw) = true →
        0 < (mkTimeWindowData i tw).sampleCount)) ∧
    ((((((tws.enum).map fun e => mkTimeWindowData e.1 e.2).map
          (·.sampleCount)).sum : ℕ) : ℚ) /
        ((((tws.enum).map fun e => mkTimeWindowData e.1 e.2).length : ℕ) : ℚ) = 0 →
      (detectPatterns ((tws.enum).map fun e =>
        mkTimeWindowData e.1 e.2)).cpuSpikes = []) := by
  refine ⟨?_, ?_, ?_⟩
  · intro i hi hemp
    rw [List.get_eq_getElem] at hemp
    constructor
    · simp [mkTimeWindowData, hemp, lockHit, lockCount]
    · simp [mkTimeWindowData, hemp, syscallHit, syscallCount, lookupCount]
  · intro i tw
    constructor
    · intro h
      rw [lockHit, decide_eq_true_iff] at h
      have := mk_lockCount_le i tw
      omega
    · intro h
      rw [syscallHit] at h
      rcases hsc : syscallCount (mkTimeWindowData i tw) with _ | sc
      · rw [hsc] at h
        exact absurd h (by simp)
      · rw [hsc] at h
        rw [decide_eq_true_iff] at h
        have := mk_syscall_le i tw
        rw [hsc] at this
        simp only [Option.getD_some] at this
        rcases Nat.eq_zero_or_pos (mkTimeWindowData i tw).sampleCount with h0 | h0
        · rw [h0] at h this
          omega
        · exact h0
  · intro hmean
    set ws := (tws.enum).map fun e => mkTimeWindowData e.1 e.2 with hws
    rw [detectPatterns]
    dsimp only
    rw [List.map_eq_nil, List.filter_eq_nil]
    rintro ⟨j, w⟩ hmem
    have hw : w ∈ ws := by
      rw [List.mk_mem_enum_iff_get?] at hmem
      exact List.get?_mem hmem
    rcases Nat.eq_zero_or_pos ws.length with hlen | hlen
    · rw [List.length_eq_zero] at hlen
      rw [hlen] at hw
      exact absurd hw (List.not_mem_nil _)
    · have hl0 : ((ws.length : ℕ) : ℚ) ≠ 0 := by
        exact_mod_cast Nat.pos_iff_ne_zero.1 hlen
      have htot : (((ws.map (·.sampleCount)).sum : ℕ) : ℚ) = 0 := by
        rcases div_eq_zero_iff.1 hmean with h | h
        · exact h
        · exact absurd h hl0
      have htot' : (ws.map (·.sampleCount)).sum = 0 := by exact_mod_cast htot
      have hcnt : w.sampleCount = 0 := by
        rw [List.sum_eq_zero_iff] at htot'
        exact htot' _ (List.mem_map_of_mem _ hw)
      simp only [spikeHit, decide_eq_true_iff]
      rw [hcnt, Nat.cast_zero]
      refine not_lt.2 (mul_nonneg (div_nonneg (List.sum_nonneg ?_)
        (by positivity)) (by norm_num))
      intro x hx
      rcases List.mem_map.1 hx with ⟨w', _, rfl⟩
      positivity

/-! ## Detector fixtures and witnesses -/

/-- Witness for C3: a window with 2 of 3 lock-related leaves (66.7% >
50%) is flagged. -/
theorem C3_witness :
    0 ∈ (detectPatterns (([wLock].enum).map fun e =>
      mkTimeWindowData e.1 e.2)).lockContentionWindows :=
  (C3_lock_contention [wLock] 0 (by norm_num)).1.2
    (by show ((3 : ℕ) : ℚ) * 50 / 100 < ((2 : ℕ) : ℚ); norm_num)

/-- Witness for C4: a window whose kernel_core tally is 100% of four
samples is flagged. -/
theorem C4_witness :
    0 ∈ (detectPatterns (([wKern].enum).map fun e =>
      mkTimeWindowData e.1 e.2)).highSyscallWindows :=
  (C4_high_syscall [wKern] 0 (by norm_num)).1.2
    (by show ((4 : ℕ) : ℚ) * 70 / 100 < ((4 : ℕ) : ℚ); norm_num)

/-- Witness for C8 at an empty window: neither lock nor syscall flag
fires, and with a zero mean no spike is flagged. -/
theorem C8_witness :
    lockHit (mkTimeWindowData 0 wEmpty) = false ∧
    syscallHit (mkTimeWindowData 0 wEmpty) = false ∧
    (detectPatterns (([wEmpty].enum).map fun e =>
      mkTimeWindowData e.1 e.2)).cpuSpikes = [] := by
  obtain ⟨h1, h2, h3⟩ := C8_degenerate_guards [wEmpty]
  have e := h1 0 (by norm_num) rfl
  exact ⟨e.1, e.2, h3 (by show ((0 : ℕ) : ℚ) / ((1 : ℕ) : ℚ) = 0; norm_num)⟩

/-! ## Lemmas about time windowing -/

theorem foldl_tsMin_le (l : List Sample) (m : ℚ) :
    (l.foldl (fun m s => if s.timestamp < m then s.timestamp else m) m ≤ m) ∧
    (∀ s ∈ l, l.foldl (fun m s => if s.timestamp < m then s.timestamp else m) m ≤
      s.timestamp) := by
  induction l generalizing m with
  | nil => exact ⟨le_refl m, by simp⟩
  | cons s t ih =>
    have hstep : (if s.timestamp < m then s.timestamp else m) ≤ m ∧
        (if s.timestamp < m then s.timestamp else m) ≤ s.timestamp := by
      split_ifs with h
      · exact ⟨le_of_lt h, le_refl _⟩
      · exact ⟨le_refl m, le_of_not_lt h⟩
    obtain ⟨ih1, ih2⟩ := ih (if s.timestamp < m then s.timestamp else m)
    refine ⟨le_trans ih1 hstep.1, ?_⟩
    intro x hx
    rcases List.mem_cons.1 hx with rfl | hx
    · exact le_trans ih1 hstep.2
    · exact ih2 x hx

theorem foldl_tsMax_ge (l : List Sample) (m : ℚ) :
    (m ≤ l.foldl (fun m s => if m < s.timestamp then s.timestamp else m) m) ∧
    (∀ s ∈ l, s.timestamp ≤
      l.foldl (fun m s => if m < s.timestamp then s.timestamp else m) m) := by
  induction l generalizing m with
  | nil => exact ⟨le_refl m, by simp⟩
  | cons s t ih =>
    have hstep : m ≤ (if m < s.timestamp then s.timestamp else m) ∧
        s.timestamp ≤ (if m < s.timestamp then s.timestamp else m) := by
      split_ifs with h
      · exact ⟨le_of_lt h, le_refl _⟩
      · exact ⟨le_refl m, le_of_not_lt h⟩
    obtain ⟨ih1, ih2⟩ := ih (if m < s.timestamp then s.timestamp else m)
    refine ⟨le_trans hstep.1 ih1, ?_⟩
    intro x hx
    rcases List.mem_cons.1 hx with rfl | hx
    · exact le_trans hstep.2 ih1
    · exact ih2 x hx

theorem minTimestamp_le (samples : List Sample) (s : Sample) (hs : s ∈ samples) :
    minTimestamp samples ≤ s.timestamp := by
  rcases samples with _ | ⟨s0, rest⟩
  · exact absurd hs (List.not_mem_nil _)
  · exact (foldl_tsMin_le (s0 :: rest) s0.timestamp).2 s hs

theorem le_maxTimestamp (samples : List Sample) (s : Sample) (hs : s ∈ samples) :
    s.timestamp ≤ maxTimestamp samples := by
  rcases samples with _ | ⟨s0, rest⟩
  · exact absurd hs (List.not_mem_nil _)
  · exact (foldl_tsMax_ge (s0 :: rest) s0.timestamp).2 s hs

theorem minTimestamp_le_maxTimestamp (samples : List Sample) (hne : samples ≠ []) :
    minTimestamp samples ≤ maxTimestamp samples := by
  rcases samples with _ | ⟨s0, rest⟩
  · exact absurd rfl hne
  · exact le_trans (minTimestamp_le (s0 :: rest) s0 (by simp))
      (le_maxTimestamp (s0 :: rest) s0 (by simp))

theorem modifyAt_length (f : α → α) (n : Nat) (l : List α) :
    (modifyAt f n l).length = l.length := by
  induction l generalizing n with
  | nil => cases n <;> rfl
  | cons x xs ih =>
    cases n with
    | zero => rfl
    | succ m => simp [modifyAt, ih]

theorem modifyAt_get (f : α → α) (n : Nat) (l : List α) (i : Nat)
    (h : i < l.length) (h' : i < (modifyAt f n l).length) :
    (modifyAt f n l).get ⟨i, h'⟩ =
      if i = n then f (l.get ⟨i, h⟩) else l.get ⟨i, h⟩ := by
  induction l generalizing n i with
  | nil => exact absurd h (by simp)
  | cons x xs ih =>
    cases n with
    | zero =>
      cases i with
      | zero => rfl
      | succ j => simp [modifyAt]
    | succ m =>
      cases i with
      | zero => simp [modifyAt]
      | succ j =>
        have hj : j < xs.length := by simpa using h
        have hj' : j < (modifyAt f m xs).length := by
          rw [modifyAt_length]; exact hj
        have := ih m j hj hj'
        simp only [modifyAt, List.get_cons_succ]
        rw [this]
        simp [Nat.succ_eq_add_one]

theorem assignSamples_cons (n : ℕ) (mT sz : ℚ) (s : Sample) (rest : List Sample)
    (ws : List TimeWindow) :
    assignSamples n mT sz (s :: rest) ws =
      assignSamples n mT sz rest
        (if 0 ≤ windowIdx mT sz s ∧ windowIdx mT sz s < (n : ℤ) then
          modifyAt (fun w => { w with samples := w.samples ++ [s] })
            (windowIdx mT sz s).toNat ws
        else ws) := rfl

theorem assignSamples_length (n : ℕ) (mT sz : ℚ) (samples : List Sample)
    (ws : List TimeWindow) :
    (assignSamples n mT sz samples ws).length = ws.length := by
  induction samples generalizing ws with
  | nil => rfl
  | cons s rest ih =>
    rw [assignSamples_cons]
    split_ifs with h
    · rw [ih, modifyAt_length]
    · rw [ih]

theorem get_congr_list (l l2 : List α) (hll : l = l2) (i : ℕ)
    (h : i < l.length) (h2 : i < l2.length) :
    l.get ⟨i, h⟩ = l2.get ⟨i, h2⟩ := by
  subst hll
  rfl

theorem assignSamples_get (n : ℕ) (mT sz : ℚ) (samples : List Sample)
    (ws : List TimeWindow)
    (hin : ∀ s ∈ samples, 0 ≤ windowIdx mT sz s ∧ windowIdx mT sz s < (n : ℤ))
    (i : ℕ) (h : i < ws.length)
    (h' : i < (assignSamples n mT sz samples ws).length) :
    (assignSamples n mT sz samples ws).get ⟨i, h'⟩ =
      { ws.get ⟨i, h⟩ with samples := ((ws.get ⟨i, h⟩).samples ++
          samples.filter (fun s => decide (windowIdx mT sz s = (i : ℤ)))) } := by
  induction samples generalizing ws with
  | nil =>
    simp only [assignSamples, List.foldl_nil, List.filter_nil, List.append_nil]
  | cons s rest ih =>
    have hs := hin s (by simp)
    have hlist : assignSamples n mT sz (s :: rest) ws =
        assignSamples n mT sz rest
          (modifyAt (fun w => { w with samples := w.samples ++ [s] })
            (windowIdx mT sz s).toNat ws) := by
      rw [assignSamples_cons, if_pos hs]
    have hlm : i < (modifyAt (fun w => { w with samples := w.samples ++ [s] })
        (windowIdx mT sz s).toNat ws).length := by
      rw [modifyAt_length]; exact h
    have h2 : i < (assignSamples n mT sz rest
        (modifyAt (fun w => { w with samples := w.samples ++ [s] })
          (windowIdx mT sz s).toNat ws)).length := by
      rw [assignSamples_length, modifyAt_length]; exact h
    rw [get_congr_list _ _ hlist i h' h2]
    rw [ih (modifyAt (fun w => { w with samples := w.samples ++ [s] })
      (windowIdx mT sz s).toNat ws) (fun x hx => hin x (by simp [hx])) hlm h2]
    rw [modifyAt_get _ _ _ _ h hlm]
    rw [List.filter_cons]
    by_cases hc : i = (windowIdx mT sz s).toNat
    · have hidx : windowIdx mT sz s = (i : ℤ) := by omega
      rw [if_pos hc, if_pos (by simpa using hidx)]
      simp
    · have hidx : ¬(windowIdx mT sz s = (i : ℤ)) := by omega
      rw [if_neg hc, if_neg (by simpa using hidx)]

theorem windowIdx_bounds (samples : List Sample) (hne : samples ≠ [])
    (sz : ℚ) (hsz : 0 < sz) (s : Sample) (hs : s ∈ samples) :
    0 ≤ windowIdx (minTimestamp samples) sz s ∧
      windowIdx (minTimestamp samples) sz s <
        ((⌊(maxTimestamp samples - minTimestamp samples) / sz⌋.toNat + 1 : ℕ) : ℤ) := by
  have hge : 0 ≤ windowIdx (minTimestamp samples) sz s := by
    rw [windowIdx]
    exact Int.floor_nonneg.2 (div_nonneg (sub_nonneg.2 (minTimestamp_le _ _ hs)) hsz.le)
  have hle : windowIdx (minTimestamp samples) sz s ≤
      ⌊(maxTimestamp samples - minTimestamp samples) / sz⌋ := by
    rw [windowIdx]
    exact Int.floor_le_floor ((div_le_div_right hsz).2
      (sub_le_sub_right (le_maxTimestamp _ _ hs) _))
  have hfl : 0 ≤ ⌊(maxTimestamp samples - minTimestamp samples) / sz⌋ :=
    Int.floor_nonneg.2 (div_nonneg
      (sub_nonneg.2 (minTimestamp_le_maxTimestamp samples hne)) hsz.le)
  exact ⟨hge, by omega⟩

theorem range_map_sum (n : ℕ) (f : ℕ → ℕ) :
    ((List.range n).map f).sum = ∑ i in Finset.range n, f i := by
  induction n with
  | zero => simp
  | succ m ih =>
    rw [List.range_succ, List.map_append, List.sum_append, Finset.sum_range_succ, ih]
    simp

theorem sum_fiber_lengths (mT sz : ℚ) (n : ℕ) (samples : List Sample)
    (hin : ∀ s ∈ samples, 0 ≤ windowIdx mT sz s ∧ windowIdx mT sz s < (n : ℤ)) :
    ((List.range n).map (fun i : ℕ =>
      (samples.filter (fun x => decide (windowIdx mT sz x = (i : ℤ)))).length)).sum =
      samples.length := by
  induction samples with
  | nil => simp
  | cons s rest ih =>
    have hs := hin s (by simp)
    have ihr := ih (fun x hx => hin x (by simp [hx]))
    rw [range_map_sum] at ihr ⊢
    have hcons : ∀ i ∈ Finset.range n,
        ((s :: rest).filter (fun x => decide (windowIdx mT sz x = (i : ℤ)))).length =
          (if (windowIdx mT sz s).toNat = i then 1 else 0) +
            (rest.filter (fun x => decide (windowIdx mT sz x = (i : ℤ)))).length := by
      intro i _
      rw [List.filter_cons]
      by_cases hc : windowIdx mT sz s = (i : ℤ)
      · rw [if_pos (by simpa using hc), if_pos (by omega)]
        simp only [List.length_cons]
        omega
      · rw [if_neg (by simpa using hc), if_neg (by omega)]
        simp
    rw [Finset.sum_congr rfl hcons, Finset.sum_add_distrib, ihr,
      Finset.sum_ite_eq (Finset.range n) (windowIdx mT sz s).toNat (fun _ => 1)]
    rw [if_pos (Finset.mem_range.2 (by omega))]
    simp [Nat.add_comm]

/-! ## Claim C1: time windowing -/

/-- Claim C1 (confirmed): for every non-empty sample sequence and
strictly positive window size, `PartitionByTime` returns exactly
`⌊(max − min)/size⌋ + 1` windows; the first starts at the minimum
timestamp; every window has width `size`; consecutive windows are
contiguous (`EndTime i = StartTime (i+1)`); the per-window sample
counts sum to the input count; and every input sample lies in exactly
one window. -/
theorem C1_partition_by_time (samples : List Sample) (windowSizeSeconds : ℚ)
    (hne : samples ≠ []) (hsz : 0 < windowSizeSeconds) :
    (((partitionByTime samples windowSizeSeconds).length : ℤ) =
      ⌊(maxTimestamp samples - minTimestamp samples) / windowSizeSeconds⌋ + 1) ∧
    (∀ h0 : 0 < (partitionByTime samples windowSizeSeconds).length,
      ((partitionByTime samples windowSizeSeconds).get ⟨0, h0⟩).startTime =
        minTimestamp samples) ∧
    (∀ (i : ℕ) (h : i < (partitionByTime samples windowSizeSeconds).length),
      ((partitionByTime samples windowSizeSeconds).get ⟨i, h⟩).endTime =
        ((partitionByTime samples windowSizeSeconds).get ⟨i, h⟩).startTime +
          windowSizeSeconds) ∧
    (∀ (i : ℕ) (h : i + 1 < (partitionByTime samples windowSizeSeconds).length),
      ((partitionByTime samples windowSizeSeconds).get
          ⟨i, Nat.lt_of_succ_lt h⟩).endTime =
        ((partitionByTime samples windowSizeSeconds).get ⟨i + 1, h⟩).startTime) ∧
    (((partitionByTime samples windowSizeSeconds).map
        (fun w => w.samples.length)).sum = samples.length) ∧
    (∀ s ∈ samples,
      ∃! i : Fin (partitionByTime samples windowSizeSeconds).length,
        s ∈ ((partitionByTime samples windowSizeSeconds).get i).samples) := by
  rcases samples with _ | ⟨s0, rest⟩
  · exact absurd rfl hne
  set sz := windowSizeSeconds with hszdef
  set mT := minTimestamp (s0 :: rest) with hmT
  set xT := maxTimestamp (s0 :: rest) with hxT
  set n := (⌊(xT - mT) / sz⌋.toNat + 1 : ℕ) with hn
  set ws0 := (List.range n).map (fun i : ℕ =>
    ({ startTime := mT + (i : ℚ) * sz, endTime := mT + (i : ℚ) * sz + sz
     , duration := sz, samples := [] } : TimeWindow)) with hws0
  have hpart : partitionByTime (s0 :: rest) sz =
      assignSamples n mT sz (s0 :: rest) ws0 := rfl
  have hlen0 : ws0.length = n := by simp [hws0]
  have hlen : (partitionByTime (s0 :: rest) sz).length = n := by
    rw [hpart, assignSamples_length, hlen0]
  have hfl : 0 ≤ ⌊(xT - mT) / sz⌋ :=
    Int.floor_nonneg.2 (div_nonneg
      (sub_nonneg.2 (minTimestamp_le_maxTimestamp _ (by simp))) hsz.le)
  have hbounds : ∀ s ∈ (s0 :: rest),
      0 ≤ windowIdx mT sz s ∧ windowIdx mT sz s < (n : ℤ) := by
    intro s hs
    exact windowIdx_bounds (s0 :: rest) (by simp) sz hsz s hs
  have hws0get : ∀ (i : ℕ) (h : i < ws0.length), ws0.get ⟨i, h⟩ =
      { startTime := mT + (i : ℚ) * sz, endTime := mT + (i : ℚ) * sz + sz
      , duration := sz, samples := [] } := by
    intro i h
    have hr : i < ((List.range n).map (fun i : ℕ =>
        ({ startTime := mT + (i : ℚ) * sz, endTime := mT + (i : ℚ) * sz + sz
         , duration := sz, samples := [] } : TimeWindow))).length := by
      rw [← hws0]; exact h
    rw [get_congr_list _ _ hws0 i h hr, List.get_map, List.get_range]
  have hget : ∀ (i : ℕ) (h : i < (partitionByTime (s0 :: rest) sz).length),
      (partitionByTime (s0 :: rest) sz).get ⟨i, h⟩ =
        { startTime := mT + (i : ℚ) * sz, endTime := mT + (i : ℚ) * sz + sz
        , duration := sz
        , samples := (s0 :: rest).filter
            (fun s => decide (windowIdx mT sz s = (i : ℤ))) } := by
    intro i h
    have hi : i < ws0.length := by rw [hlen0, ← hlen]; exact h
    have h' : i < (assignSamples n mT sz (s0 :: rest) ws0).length := by
      rw [← hpart]; exact h
    rw [get_congr_list _ _ hpart i h h']
    rw [assignSamples_get n mT sz (s0 :: rest) ws0 hbounds i hi h']
    rw [hws0get i hi]
    rfl
  refine ⟨?_, ?_, ?_, ?_, ?_, ?_⟩
  · rw [hlen, hn]
    push_cast [Int.toNat_of_nonneg hfl]
    ring
  · intro h0
    rw [hget 0 h0]
    norm_num
  · intro i h
    rw [hget i h]
  · intro i h
    rw [hget i (Nat.lt_of_succ_lt h), hget (i + 1) h]
    push_cast
    ring
  · have hmap : (partitionByTime (s0 :: rest) sz).map (fun w => w.samples.length) =
        (List.range n).map (fun i : ℕ =>
          ((s0 :: rest).filter
            (fun x => decide (windowIdx mT sz x = (i : ℤ)))).length) := by
      apply List.ext_get
      · simp [hlen]
      · intro j h1 h2
        rw [List.get_map, List.get_map, List.get_range]
        rw [hget j (by simpa using h1)]
    rw [hmap, sum_fiber_lengths mT sz n (s0 :: rest) hbounds]
  · intro s hs
    have hb := hbounds s hs
    have hidx : (windowIdx mT sz s).toNat < (partitionByTime (s0 :: rest) sz).length := by
      rw [hlen]; omega
    refine ⟨⟨(windowIdx mT sz s).toNat, hidx⟩, ?_, ?_⟩
    · show s ∈ ((partitionByTime (s0 :: rest) sz).get
        ⟨(windowIdx mT sz s).toNat, hidx⟩).samples
      rw [hget _ hidx]
      simp only [List.mem_filter, decide_eq_true_iff]
      exact ⟨hs, by omega⟩
    · rintro ⟨j, hj⟩ hmem
      have hmem2 : s ∈ ((partitionByTime (s0 :: rest) sz).get ⟨j, hj⟩).samples := hmem
      rw [hget j hj] at hmem2
      simp only [List.mem_filter, decide_eq_true_iff] at hmem2
      apply Fin.ext
      simp only
      omega

/-- Witness for C1 at two concrete samples (timestamps 0 and 5/2,
window size 1): the per-window counts sum to the sample count. -/
theorem C1_witness :
    ((partitionByTime [plainSample,
        { plainSample with timestamp := 5 / 2 }] 1).map
      (fun w => w.samples.length)).sum = 2 :=
  (C1_partition_by_time [plainSample, { plainSample with timestamp := 5 / 2 }] 1
    (by simp) (by norm_num)).2.2.2.2.1

end BlcPerf

